import Mathlib

/-!
Verification of the billventory inventory ledger.

Shallow embedding of the core logic of the repository:
* `src/server/server.js` — the POST /api/transactions handler (incremental
  server-side inventory update, transaction upsert), DELETE /api/transactions/:id;
* the App component (`src/unnamed/part_000`) — the derive-inventory
  `useEffect` that recomputes the full inventory from the transaction list.

Modelling choices:
* JavaScript strings are lists of Unicode code points (`List Nat`).
* JavaScript numbers are modelled as exact rationals (`ℚ`); dates as integer
  timestamps (`ℤ`, the value of `new Date(d).getTime()`).
* The MongoDB collections (`Transaction`, `Inventory`) keyed by their `id`
  fields are modelled as maps `JStr → Option _`.
-/

namespace Billventory

/-- A JavaScript string: the list of its Unicode code points. -/
abbrev JStr := List Nat

/-- The code points removed by `String.prototype.trim`:
ECMAScript WhiteSpace (TAB, VT, FF, SP, NBSP, ZWNBSP and the Zs category)
together with LineTerminator (LF, CR, LS, PS). -/
def isJsWs (n : Nat) : Bool :=
  decide (n = 9 ∨ n = 10 ∨ n = 11 ∨ n = 12 ∨ n = 13 ∨ n = 32 ∨ n = 160 ∨
    n = 0x1680 ∨ (0x2000 ≤ n ∧ n ≤ 0x200A) ∨ n = 0x2028 ∨ n = 0x2029 ∨
    n = 0x202F ∨ n = 0x205F ∨ n = 0x3000 ∨ n = 0xFEFF)

/-- `String.prototype.toLowerCase` on one code point, restricted to the
Basic Latin letters actually exercised by the application (A–Z ↦ a–z). -/
def jsLower (n : Nat) : Nat := if 65 ≤ n ∧ n ≤ 90 then n + 32 else n

/-- `String.prototype.toUpperCase` on one code point (a–z ↦ A–Z); used to
speak about case variants of a description. -/
def jsUpper (n : Nat) : Nat := if 97 ≤ n ∧ n ≤ 122 then n - 32 else n

/-- `String.prototype.trim`: drop `isJsWs` code points from both ends. -/
def jsTrim (s : JStr) : JStr := (s.dropWhile isJsWs).rdropWhile isJsWs

/-- The product-key normalizer: `item.description.trim().toLowerCase()`
(server.js, POST handler; App derive-inventory effect). -/
def normalize (s : JStr) : JStr := (jsTrim s).map jsLower

/-- `transaction.type`: the `enum ['PURCHASE', 'SALE']` of the schema. -/
inductive TxType
  | PURCHASE
  | SALE
deriving DecidableEq

/-- One line item of a transaction (`ItemSchema`): `description`,
`quantity`, `price`.  The `id` field of `ItemSchema` plays no role in the
ledger logic and is omitted. -/
structure LineItem where
  description : JStr
  quantity : ℚ
  price : ℚ
deriving DecidableEq

/-- A transaction record (`TransactionSchema`).  `dueDate` and `notes` are
optional in the schema and irrelevant to every claim; they are omitted. -/
structure Tx where
  id : JStr
  type : TxType
  invoiceNumber : JStr
  partyName : JStr
  date : ℤ
  status : JStr
  items : List LineItem
  totalAmount : ℚ
deriving DecidableEq

/-- An inventory record (`InventorySchema`). -/
structure InventoryItem where
  id : JStr
  name : JStr
  quantity : ℚ
  averageCost : ℚ
  sellingPrice : ℚ
  lastUpdated : ℤ
deriving DecidableEq

/-- The inventory store: a map from normalized product key to record. -/
abbrev InvState := JStr → Option InventoryItem

/-- The empty inventory. -/
def emptyInv : InvState := fun _ => none

/-- Write-back of one inventory record under its key (`invItem.save()` on
the server, `newInventory[key] = …` on the client). -/
def updateInv (s : InvState) (k : JStr) (v : InventoryItem) : InvState :=
  fun k2 => if k2 = k then some v else s k2

/-- The looked-up inventory record, or the freshly initialized one when the
key is absent: `if (!invItem) invItem = new Inventory({ id: productId,
name: item.description, quantity: 0, averageCost: 0, sellingPrice: 0,
lastUpdated: transaction.date })` (server.js); the client initializes the
same record literal. -/
def invOrInit (s : InvState) (key : JStr) (descr : JStr) (date : ℤ) :
    InventoryItem :=
  match s key with
  | some it => it
  | none =>
    { id := key, name := descr, quantity := 0, averageCost := 0,
      sellingPrice := 0, lastUpdated := date }

/-- One line item applied to the inventory, as written in the App
derive-inventory `useEffect` (`src/unnamed/part_000`): key normalization,
initialization when absent, the PURCHASE weighted-average branch guarded by
`quantity > 0`, the SALE branch, and the unconditional
`lastUpdated = inv.date`. -/
def clientApplyItem (date : ℤ) (ty : TxType) (s : InvState)
    (item : LineItem) : InvState :=
  let key := normalize item.description
  let inv0 := invOrInit s key item.description date
  let inv1 :=
    match ty with
    | TxType.PURCHASE =>
      let currentTotalValue := inv0.quantity * inv0.averageCost
      let newItemsValue := item.quantity * item.price
      let q := inv0.quantity + item.quantity
      { inv0 with
        quantity := q,
        averageCost :=
          if 0 < q then (currentTotalValue + newItemsValue) / q
          else inv0.averageCost }
    | TxType.SALE =>
      { inv0 with
        quantity := inv0.quantity - item.quantity,
        sellingPrice := item.price }
  updateInv s key { inv1 with lastUpdated := date }

/-- One transaction applied to the inventory on the client: its items are
folded in list order (`inv.items.forEach`). -/
def clientApplyTx (s : InvState) (t : Tx) : InvState :=
  t.items.foldl (clientApplyItem t.date t.type) s

/-- Insertion step of the stable sort by business date modelling
`[...transactions].sort((a, b) => new Date(a.date).getTime() -
new Date(b.date).getTime())`; ECMAScript `Array.prototype.sort` is stable,
so ties keep original order. -/
def insertByDate (t : Tx) : List Tx → List Tx
  | [] => [t]
  | u :: us => if t.date ≤ u.date then t :: u :: us else u :: insertByDate t us

/-- Stable sort of the transaction list by ascending business date. -/
def sortByDate : List Tx → List Tx
  | [] => []
  | t :: ts => insertByDate t (sortByDate ts)

/-- The client derivation: sort all transactions by date ascending, then
fold them into an empty inventory (the derive-inventory `useEffect`). -/
def clientDerive (txns : List Tx) : InvState :=
  (sortByDate txns).foldl clientApplyTx emptyInv

/-- One line item applied to the inventory on the server
(POST /api/transactions, the `for (const item of transaction.items)` body):
identical arithmetic to the client version. -/
def serverApplyItem (t : Tx) (s : InvState) (item : LineItem) : InvState :=
  let productId := normalize item.description
  let invItem := invOrInit s productId item.description t.date
  let invItem1 :=
    match t.type with
    | TxType.PURCHASE =>
      let currentTotalValue := invItem.quantity * invItem.averageCost
      let newItemsValue := item.quantity * item.price
      let q := invItem.quantity + item.quantity
      { invItem with
        quantity := q,
        averageCost :=
          if 0 < q then (currentTotalValue + newItemsValue) / q
          else invItem.averageCost }
    | TxType.SALE =>
      { invItem with
        quantity := invItem.quantity - item.quantity,
        sellingPrice := item.price }
  updateInv s productId { invItem1 with lastUpdated := t.date }

/-- All items of one transaction applied to the server inventory store. -/
def serverApplyTx (s : InvState) (t : Tx) : InvState :=
  t.items.foldl (serverApplyItem t) s

/-- The server-side persistent state: the `Transaction` collection keyed by
`id`, and the `Inventory` collection. -/
structure ServerState where
  store : JStr → Option Tx
  inv : InvState

/-- Initial server state: both collections empty. -/
def emptyServer : ServerState := ⟨fun _ => none, emptyInv⟩

/-- The JSON body answered by POST /api/transactions:
`res.json({ transaction: saved })` — it carries only the stored
transaction. -/
structure SubmitResponse where
  transaction : Tx
deriving DecidableEq

/-- The POST /api/transactions handler: look up `Transaction.findOne({ id })`;
only when absent, apply every line item to the inventory; then upsert the
transaction record (`findOneAndUpdate` with `upsert: true, new: true`) and
answer `{ transaction: saved }`. -/
def serverSubmit (s : ServerState) (t : Tx) : ServerState × SubmitResponse :=
  let existing := s.store t.id
  let inv1 := if existing.isSome then s.inv else serverApplyTx s.inv t
  let store1 := fun k => if k = t.id then some t else s.store k
  ({ store := store1, inv := inv1 }, { transaction := t })

/-- The server state after submitting a whole history one transaction at a
time, starting from empty collections. -/
def serverReplay (txns : List Tx) : ServerState :=
  txns.foldl (fun s t => (serverSubmit s t).1) emptyServer

/-- The DELETE /api/transactions/:id handler:
`Transaction.deleteOne({ id: req.params.id })`; the inventory collection is
never touched.  `deleteOne` succeeds (matching zero documents) when the id
is absent. -/
def serverDelete (s : ServerState) (i : JStr) : ServerState :=
  { store := fun k => if k = i then none else s.store k, inv := s.inv }

/-! ### Character-level facts about the normalizer -/

theorem isJsWs_eq_false_of_letter {n : Nat} (h1 : 65 ≤ n) (h2 : n ≤ 122) :
    isJsWs n = false := by
  simp only [isJsWs, decide_eq_false_iff_not]
  omega

theorem jsLower_jsLower (n : Nat) : jsLower (jsLower n) = jsLower n := by
  by_cases h : 65 ≤ n ∧ n ≤ 90
  · simp only [jsLower, if_pos h]
    rw [if_neg (by omega)]
  · simp only [jsLower, if_neg h]

theorem jsLower_jsUpper (n : Nat) : jsLower (jsUpper n) = jsLower n := by
  by_cases h : 97 ≤ n ∧ n ≤ 122
  · simp only [jsUpper, jsLower, if_pos h]
    rw [if_pos (by omega), if_neg (by omega)]
    omega
  · simp only [jsUpper, if_neg h]

theorem isJsWs_jsLower (n : Nat) : isJsWs (jsLower n) = isJsWs n := by
  by_cases h : 65 ≤ n ∧ n ≤ 90
  · simp only [jsLower, if_pos h]
    rw [isJsWs_eq_false_of_letter (by omega) (by omega),
      isJsWs_eq_false_of_letter (by omega) (by omega)]
  · simp only [jsLower, if_neg h]

theorem isJsWs_jsUpper (n : Nat) : isJsWs (jsUpper n) = isJsWs n := by
  by_cases h : 97 ≤ n ∧ n ≤ 122
  · simp only [jsUpper, if_pos h]
    rw [isJsWs_eq_false_of_letter (by omega) (by omega),
      isJsWs_eq_false_of_letter (by omega) (by omega)]
  · simp only [jsUpper, if_neg h]

/-! ### Trim-level facts -/

theorem dropWhile_self_of_prefix {α : Type} (p : α → Bool) (l B : List α)
    (h : B <+: List.dropWhile p l) : List.dropWhile p B = B := by
  rcases B with _ | ⟨b, bs⟩
  · rfl
  · obtain ⟨t, ht⟩ := h
    have hidem := List.dropWhile_idempotent p l
    rw [← ht, List.cons_append] at hidem
    by_cases hb : p b
    · rw [List.dropWhile_cons_of_pos hb] at hidem
      have hlen := (List.dropWhile_sublist (l := bs ++ t) p).length_le
      rw [hidem] at hlen
      simp at hlen
    · exact List.dropWhile_cons_of_neg hb

theorem jsTrim_dropWhile (s : JStr) :
    List.dropWhile isJsWs (jsTrim s) = jsTrim s := by
  have hpre := List.rdropWhile_prefix isJsWs (List.dropWhile isJsWs s)
  exact dropWhile_self_of_prefix isJsWs s _ hpre

theorem jsTrim_idem (s : JStr) : jsTrim (jsTrim s) = jsTrim s := by
  conv_lhs => rw [jsTrim, jsTrim_dropWhile]
  unfold jsTrim
  rw [List.rdropWhile_idempotent]

theorem rdropWhile_map {α β : Type} (f : α → β) (p : β → Bool) (l : List α) :
    List.rdropWhile p (l.map f) = (List.rdropWhile (fun a => p (f a)) l).map f := by
  unfold List.rdropWhile
  rw [← List.map_reverse, List.dropWhile_map, List.map_reverse]
  rfl

theorem jsTrim_map_jsLower (s : JStr) :
    jsTrim (s.map jsLower) = (jsTrim s).map jsLower := by
  have hws : (fun a => isJsWs (jsLower a)) = isJsWs := funext isJsWs_jsLower
  unfold jsTrim
  rw [List.dropWhile_map, rdropWhile_map]
  simp only [Function.comp_def, hws]

theorem jsTrim_map_jsUpper (s : JStr) :
    jsTrim (s.map jsUpper) = (jsTrim s).map jsUpper := by
  have hws : (fun a => isJsWs (jsUpper a)) = isJsWs := funext isJsWs_jsUpper
  unfold jsTrim
  rw [List.dropWhile_map, rdropWhile_map]
  simp only [Function.comp_def, hws]

theorem rdropWhile_append_all {α : Type} (p : α → Bool) (x q : List α)
    (hq : ∀ a ∈ q, p a = true) :
    List.rdropWhile p (x ++ q) = List.rdropWhile p x := by
  unfold List.rdropWhile
  rw [List.reverse_append, List.dropWhile_append_of_pos]
  intro a ha
  exact hq a (List.mem_reverse.mp ha)

theorem jsTrim_pad (s p q : JStr) (hp : ∀ n ∈ p, isJsWs n = true)
    (hq : ∀ n ∈ q, isJsWs n = true) : jsTrim (p ++ s ++ q) = jsTrim s := by
  unfold jsTrim
  rw [List.append_assoc, List.dropWhile_append_of_pos hp, List.dropWhile_append]
  by_cases h : List.dropWhile isJsWs s = []
  · rw [h]
    simp only [List.isEmpty_nil, if_true]
    rw [List.dropWhile_eq_nil_iff.mpr (by intro x hx; exact hq x hx)]
  · rw [if_neg (by simpa using h)]
    exact rdropWhile_append_all _ _ _ hq

/-- C9: the product-key normalization (trim surrounding whitespace then
lowercase) is idempotent, `normalize (normalize s) = normalize s`; two
descriptions map to the same key iff they are equal after trimming and
lowercasing; in particular an upper-cased variant and a variant padded with
surrounding whitespace map to the same key. -/
theorem normalize_idem_and_key_equiv :
    (∀ s : JStr, normalize (normalize s) = normalize s) ∧
    (∀ a b : JStr,
      normalize a = normalize b ↔ (jsTrim a).map jsLower = (jsTrim b).map jsLower) ∧
    (∀ s : JStr, normalize (s.map jsUpper) = normalize s) ∧
    (∀ s p q : JStr, (∀ n ∈ p, isJsWs n = true) → (∀ n ∈ q, isJsWs n = true) →
      normalize (p ++ s ++ q) = normalize s) := by
  refine ⟨fun s => ?_, fun a b => Iff.rfl, fun s => ?_, fun s p q hp hq => ?_⟩
  · show normalize ((jsTrim s).map jsLower) = normalize s
    unfold normalize
    rw [jsTrim_map_jsLower, jsTrim_idem, List.map_map]
    congr 1
    funext n
    exact jsLower_jsLower n
  · unfold normalize
    rw [jsTrim_map_jsUpper, List.map_map]
    congr 1
    funext n
    exact jsLower_jsUpper n
  · unfold normalize
    rw [jsTrim_pad s p q hp hq]

/-- C9 witness: concrete instances of each conjunct, with the hypotheses of
the padding conjunct discharged at a concrete whitespace padding;
`[76, 97]` is the string "La", `[32]` a space, `[10]` a line feed. -/
theorem normalize_idem_and_key_equiv_witness :
    normalize (normalize [32, 76, 97]) = normalize [32, 76, 97] ∧
    normalize ([32] ++ [76, 97] ++ [32, 10]) = normalize [76, 97] ∧
    normalize [76, 97] = [108, 97] := by
  refine ⟨normalize_idem_and_key_equiv.1 [32, 76, 97],
    normalize_idem_and_key_equiv.2.2.2 [76, 97] [32] [32, 10]
      (by decide) (by decide), by decide⟩

/-! ### Sample data: the example scenario of the spec (§8) -/

/-- The description "Laptop". -/
def descLaptop : JStr := [76, 97, 112, 116, 111, 112]

/-- The description "laptop " (lower case, trailing space). -/
def descLaptopPad : JStr := [108, 97, 112, 116, 111, 112, 32]

/-- The purchase transaction of the spec example: 5 Laptops at 30000. -/
def txA : Tx :=
  { id := [49], type := TxType.PURCHASE, invoiceNumber := [], partyName := [],
    date := 1, status := [],
    items := [{ description := descLaptop, quantity := 5, price := 30000 }],
    totalAmount := 150000 }

/-- The sale transaction of the spec example: 1 "laptop " at 35000. -/
def txB : Tx :=
  { id := [50], type := TxType.SALE, invoiceNumber := [], partyName := [],
    date := 2, status := [],
    items := [{ description := descLaptopPad, quantity := 1, price := 35000 }],
    totalAmount := 35000 }

/-! ### The client fold versus the server incremental update -/

theorem insertByDate_of_head_le (t : Tx) (l : List Tx)
    (h : ∀ u ∈ l, t.date ≤ u.date) : insertByDate t l = t :: l := by
  cases l with
  | nil => rfl
  | cons u us =>
    unfold insertByDate
    rw [if_pos (h u (List.mem_cons_self u us))]

theorem sortByDate_eq_self {l : List Tx}
    (h : l.Pairwise (fun a b => a.date ≤ b.date)) : sortByDate l = l := by
  induction l with
  | nil => rfl
  | cons t ts ih =>
    rw [List.pairwise_cons] at h
    unfold sortByDate
    rw [ih h.2, insertByDate_of_head_le t ts h.1]

/-- The two copies of the per-item folding logic — the server POST handler
body and the client derive-inventory effect body — are the same function. -/
theorem serverApplyItem_eq_client (t : Tx) :
    serverApplyItem t = clientApplyItem t.date t.type := rfl

theorem serverApplyTx_eq_client : serverApplyTx = clientApplyTx := rfl

/-- Replaying submissions whose ids are fresh and pairwise distinct folds
exactly the per-transaction inventory update, starting from any state. -/
theorem serverReplay_inv_fold (txns : List Tx) :
    ∀ s : ServerState, (∀ t ∈ txns, s.store t.id = none) →
    (txns.map Tx.id).Nodup →
    (txns.foldl (fun s t => (serverSubmit s t).1) s).inv =
      txns.foldl serverApplyTx s.inv := by
  induction txns with
  | nil =>
    intro s _ _
    rfl
  | cons t ts ih =>
    intro s hfresh hnodup
    have h0 : s.store t.id = none := hfresh t (List.mem_cons_self _ _)
    have hstep : (serverSubmit s t).1 =
        { store := fun k => if k = t.id then some t else s.store k,
          inv := serverApplyTx s.inv t } := by
      simp only [serverSubmit, h0, Option.isSome_none, Bool.false_eq_true,
        if_false]
    rw [List.map_cons, List.nodup_cons] at hnodup
    simp only [List.foldl_cons, hstep]
    apply ih
    · intro u hu
      show (if u.id = t.id then some t else s.store u.id) = none
      have hne : u.id ≠ t.id := by
        intro he
        exact hnodup.1 (he ▸ List.mem_map_of_mem Tx.id hu)
      rw [if_neg hne]
      exact hfresh u (List.mem_cons_of_mem _ hu)
    · exact hnodup.2

/-- C1: for an ordered transaction history (ascending business dates, and
pairwise-distinct ids as the data model requires), deriving the inventory
from scratch — the client fold: stable-sort by date, fold into an empty
state — and incrementally applying each transaction in order to an
initially-empty server state produce the identical inventory map: same
keys and the same record per key. -/
theorem clientDerive_eq_serverReplay (txns : List Tx)
    (hsorted : txns.Pairwise (fun a b => a.date ≤ b.date))
    (hids : (txns.map Tx.id).Nodup) :
    clientDerive txns = (serverReplay txns).inv := by
  unfold clientDerive serverReplay
  rw [sortByDate_eq_self hsorted,
    serverReplay_inv_fold txns emptyServer (fun t _ => rfl) hids]
  rfl

/-- C1 witness: the spec example history (a purchase on day 1, a sale on
day 2, distinct ids) is sorted with distinct ids, and the theorem applies
to it. -/
theorem clientDerive_eq_serverReplay_witness :
    clientDerive [txA, txB] = (serverReplay [txA, txB]).inv :=
  clientDerive_eq_serverReplay [txA, txB] (by decide) (by decide)

/-! ### Transaction store: idempotent upsert, deletion frame -/

/-- C6: submitting the same transaction twice (same id, identical content)
leaves the whole server state — the transaction store and the inventory
store — exactly as after submitting it once: the second submission finds
the id, applies no inventory deltas, and the upsert replaces the record
with identical content. -/
theorem serverSubmit_idempotent (s : ServerState) (t : Tx) :
    (serverSubmit (serverSubmit s t).1 t).1 = (serverSubmit s t).1 := by
  unfold serverSubmit
  simp only [if_pos rfl, Option.isSome_some, if_true, ServerState.mk.injEq]
  refine ⟨funext fun k => ?_, by trivial⟩
  by_cases hk : k = t.id
  · simp [hk]
  · simp [hk]

/-- C7: deleting a transaction by id removes exactly that id from the
transaction store, leaves the inventory store untouched, and deleting again
(including when the id was never present) changes nothing — deletion is
total and idempotent, and never adjusts inventory. -/
theorem serverDelete_frame (s : ServerState) (i j : JStr) :
    (serverDelete s i).inv = s.inv ∧
    (serverDelete s i).store j = (if j = i then none else s.store j) ∧
    serverDelete (serverDelete s i) i = serverDelete s i := by
  refine ⟨rfl, rfl, ?_⟩
  unfold serverDelete
  simp only [ServerState.mk.injEq]
  refine ⟨funext fun k => ?_, by trivial⟩
  by_cases hk : k = i
  · simp [hk]
  · simp [hk]

/-! ### The submission response does not report newness -/

/-- C2 counterexample: no observer of the POST /api/transactions response
can read off whether the submitted id existed beforehand — the concrete
submissions of `txA` against an empty store (id new) and against a store
already holding `txA` (id existing) return the very same response
`{ transaction: saved }`, so the claimed `isNew` observable does not exist
in the result. -/
theorem submit_response_no_isNew :
    ¬ ∃ f : SubmitResponse → Bool, ∀ (s : ServerState) (t : Tx),
      f (serverSubmit s t).2 = (s.store t.id).isSome := by
  rintro ⟨f, hf⟩
  have h1 := hf emptyServer txA
  have h2 := hf ⟨fun k => if k = txA.id then some txA else none, emptyInv⟩ txA
  simp only [serverSubmit, emptyServer, Option.isSome_none, if_pos rfl,
    Option.isSome_some] at h1 h2
  rw [h1] at h2
  exact Bool.false_ne_true h2

/-- C2 amended: the transaction-submission operation answers only
`{ transaction: saved }`; whether the id existed beforehand is computed
internally and decides whether the ledger fold is applied, but it is not
part of the observable result. -/
theorem serverSubmit_response_and_ledger (s : ServerState) (t : Tx) :
    (serverSubmit s t).2 = { transaction := t } ∧
    (serverSubmit s t).1.inv =
      (if (s.store t.id).isSome then s.inv else serverApplyTx s.inv t) :=
  ⟨rfl, rfl⟩

/-! ### Pointwise evaluation of one folding step -/

theorem updateInv_self (s : InvState) (k : JStr) (v : InventoryItem) :
    updateInv s k v k = some v := by
  simp [updateInv]

theorem updateInv_other (s : InvState) (k j : JStr) (v : InventoryItem)
    (h : j ≠ k) : updateInv s k v j = s j := by
  simp [updateInv, h]

theorem clientApplyItem_sale (date : ℤ) (s : InvState) (item : LineItem) :
    clientApplyItem date TxType.SALE s item (normalize item.description) =
      some { invOrInit s (normalize item.description) item.description date with
             quantity := (invOrInit s (normalize item.description)
               item.description date).quantity - item.quantity,
             sellingPrice := item.price,
             lastUpdated := date } := by
  simp only [clientApplyItem]
  exact updateInv_self _ _ _

theorem clientApplyItem_purchase (date : ℤ) (s : InvState) (item : LineItem) :
    clientApplyItem date TxType.PURCHASE s item (normalize item.description) =
      some { invOrInit s (normalize item.description) item.description date with
             quantity := (invOrInit s (normalize item.description)
                 item.description date).quantity + item.quantity,
             averageCost :=
               if 0 < (invOrInit s (normalize item.description)
                   item.description date).quantity + item.quantity then
                 ((invOrInit s (normalize item.description)
                     item.description date).quantity *
                   (invOrInit s (normalize item.description)
                     item.description date).averageCost +
                   item.quantity * item.price) /
                   ((invOrInit s (normalize item.description)
                     item.description date).quantity + item.quantity)
               else (invOrInit s (normalize item.description)
                 item.description date).averageCost,
             lastUpdated := date } := by
  simp only [clientApplyItem]
  exact updateInv_self _ _ _

theorem clientApplyItem_off_key (date : ℤ) (ty : TxType) (s : InvState)
    (item : LineItem) (k : JStr) (h : k ≠ normalize item.description) :
    clientApplyItem date ty s item k = s k := by
  simp only [clientApplyItem]
  exact updateInv_other _ _ _ _ h

theorem purchase_fresh_pos (date : ℤ) (s : InvState) (item : LineItem)
    (habs : s (normalize item.description) = none) (hq : 0 < item.quantity) :
    clientApplyItem date TxType.PURCHASE s item (normalize item.description) =
      some { id := normalize item.description, name := item.description,
             quantity := item.quantity, averageCost := item.price,
             sellingPrice := 0, lastUpdated := date } := by
  rw [clientApplyItem_purchase]
  unfold invOrInit
  rw [habs]
  simp only [zero_mul, zero_add]
  rw [if_pos hq, mul_div_cancel_left₀ _ hq.ne']

theorem purchase_existing (date : ℤ) (s : InvState) (item : LineItem)
    (it : InventoryItem) (hit : s (normalize item.description) = some it) :
    clientApplyItem date TxType.PURCHASE s item (normalize item.description) =
      some { it with
             quantity := it.quantity + item.quantity,
             averageCost :=
               if 0 < it.quantity + item.quantity then
                 (it.quantity * it.averageCost + item.quantity * item.price) /
                   (it.quantity + item.quantity)
               else it.averageCost,
             lastUpdated := date } := by
  rw [clientApplyItem_purchase]
  unfold invOrInit
  rw [hit]

/-! ### C10: a sale on an absent key creates a negative-quantity record -/

/-- C10: for a SALE line item whose normalized key is absent from the
state, the fold creates a new record with the raw description as name,
quantity minus the item quantity, averageCost 0, sellingPrice the item
price, and lastUpdated the transaction date. -/
theorem sale_fresh_key_creates (date : ℤ) (s : InvState) (item : LineItem)
    (habs : s (normalize item.description) = none) :
    clientApplyItem date TxType.SALE s item (normalize item.description) =
      some { id := normalize item.description, name := item.description,
             quantity := -item.quantity, averageCost := 0,
             sellingPrice := item.price, lastUpdated := date } := by
  rw [clientApplyItem_sale]
  unfold invOrInit
  rw [habs]
  simp [zero_sub]

/-- C10 witness: selling one "laptop " into an empty inventory creates the
record with quantity −1, averageCost 0, sellingPrice 35000. -/
theorem sale_fresh_key_creates_witness :
    clientApplyItem 2 TxType.SALE emptyInv
        { description := descLaptopPad, quantity := 1, price := 35000 }
        (normalize descLaptopPad) =
      some { id := normalize descLaptopPad, name := descLaptopPad,
             quantity := -1, averageCost := 0, sellingPrice := 35000,
             lastUpdated := 2 } :=
  sale_fresh_key_creates 2 emptyInv _ rfl

/-! ### C4: what a sale changes on an existing record -/

/-- The inventory record produced by the spec example purchase: five
laptops at cost 30000, recorded on day 1. -/
def itC : InventoryItem :=
  { id := [108, 97, 112, 116, 111, 112], name := descLaptop, quantity := 5,
    averageCost := 30000, sellingPrice := 0, lastUpdated := 1 }

/-- C4 counterexample: at the concrete state holding `itC` (lastUpdated
day 1), a SALE dated day 2 changes the `lastUpdated` field of the record —
so it is false that only `quantity` and `sellingPrice` change. -/
theorem sale_changes_lastUpdated :
    (clientApplyItem 2 TxType.SALE
        (updateInv emptyInv (normalize descLaptopPad) itC)
        { description := descLaptopPad, quantity := 1, price := 35000 }
        (normalize descLaptopPad)).map InventoryItem.lastUpdated ≠
    ((updateInv emptyInv (normalize descLaptopPad) itC)
        (normalize descLaptopPad)).map InventoryItem.lastUpdated := by
  decide

/-- C4 amended: a SALE on an existing key leaves `averageCost` (and `id`
and `name`) unchanged; exactly `quantity` (decreased by the item
quantity), `sellingPrice` (overwritten with the item price) and
`lastUpdated` (overwritten with the transaction date) change, and every
other key of the state is untouched. -/
theorem sale_existing_key_frame (date : ℤ) (s : InvState) (item : LineItem)
    (it : InventoryItem) (hit : s (normalize item.description) = some it) :
    clientApplyItem date TxType.SALE s item (normalize item.description) =
      some { it with
             quantity := it.quantity - item.quantity,
             sellingPrice := item.price, lastUpdated := date } ∧
    ∀ k : JStr, k ≠ normalize item.description →
      clientApplyItem date TxType.SALE s item k = s k := by
  constructor
  · rw [clientApplyItem_sale]
    unfold invOrInit
    rw [hit]
  · intro k hk
    exact clientApplyItem_off_key date TxType.SALE s item k hk

/-- C4 witness: the concrete sale of the counterexample state, with the
existing-key hypothesis discharged by computation. -/
theorem sale_existing_key_frame_witness :
    clientApplyItem 2 TxType.SALE
        (updateInv emptyInv (normalize descLaptopPad) itC)
        { description := descLaptopPad, quantity := 1, price := 35000 }
        (normalize descLaptopPad) =
      some { itC with
             quantity := itC.quantity - 1, sellingPrice := 35000,
             lastUpdated := 2 } :=
  (sale_existing_key_frame 2 _ _ itC (by decide)).1

/-! ### C5: the division guard of the PURCHASE branch -/

/-- The averageCost stored under a key, when the key is present. -/
def avgAt (s : InvState) (k : JStr) : Option ℚ :=
  (s k).map InventoryItem.averageCost

/-- C5: in the PURCHASE step of the fold, with `inv0` the pre-update record
(looked up or freshly initialized), the weighted-average division happens
exactly when the post-update quantity is strictly positive: when that
quantity is ≤ 0 the averageCost keeps its prior value, so the fold never
divides by a zero or negative quantity. -/
theorem purchase_averageCost_guard (date : ℤ) (s : InvState)
    (item : LineItem) (inv0 : InventoryItem)
    (h0 : inv0 = invOrInit s (normalize item.description)
      item.description date) :
    (inv0.quantity + item.quantity ≤ 0 →
      avgAt (clientApplyItem date TxType.PURCHASE s item)
        (normalize item.description) = some inv0.averageCost) ∧
    (0 < inv0.quantity + item.quantity →
      avgAt (clientApplyItem date TxType.PURCHASE s item)
        (normalize item.description) =
        some ((inv0.quantity * inv0.averageCost +
          item.quantity * item.price) / (inv0.quantity + item.quantity))) := by
  subst h0
  unfold avgAt
  rw [clientApplyItem_purchase]
  constructor
  · intro h
    rw [if_neg (not_lt.mpr h)]
    rfl
  · intro h
    rw [if_pos h]
    rfl

/-- A record left oversold at quantity −5 with a prior averageCost of 11. -/
def itNeg : InventoryItem :=
  { id := [108, 97, 112, 116, 111, 112], name := descLaptop, quantity := -5,
    averageCost := 11, sellingPrice := 0, lastUpdated := 1 }

/-- The record freshly initialized for "Laptop" on day 1. -/
def itInit : InventoryItem :=
  { id := normalize descLaptop, name := descLaptop, quantity := 0,
    averageCost := 0, sellingPrice := 0, lastUpdated := 1 }

/-- A purchase line item: 3 more "laptop " at 40000. -/
def itemPad3 : LineItem :=
  { description := descLaptopPad, quantity := 3, price := 40000 }

/-- A purchase line item: 5 Laptops at 30000. -/
def itemLap5 : LineItem :=
  { description := descLaptop, quantity := 5, price := 30000 }

/-- A second purchase transaction: 5 "laptop " at 40000 on day 3. -/
def txC : Tx :=
  { id := [51], type := TxType.PURCHASE, invoiceNumber := [], partyName := [],
    date := 3, status := [],
    items := [{ description := descLaptopPad, quantity := 5, price := 40000 }],
    totalAmount := 200000 }

/-- C5 witness: with the oversold record `itNeg`, a purchase of 3 units
gives post-quantity −2 ≤ 0 and the averageCost stays at its prior value 11;
with an absent key, a purchase of 5 units at 30000 gives post-quantity
5 > 0 and the weighted-average division is performed. -/
theorem purchase_averageCost_guard_witness :
    avgAt (clientApplyItem 3 TxType.PURCHASE
        (updateInv emptyInv (normalize descLaptopPad) itNeg) itemPad3)
      (normalize descLaptopPad) = some 11 ∧
    avgAt (clientApplyItem 1 TxType.PURCHASE emptyInv itemLap5)
      (normalize descLaptop) = some 30000 := by
  constructor
  · exact (purchase_averageCost_guard 3
      (updateInv emptyInv (normalize descLaptopPad) itNeg) itemPad3 itNeg
      (by decide)).1 (by norm_num [itNeg, itemPad3])
  · have h := (purchase_averageCost_guard 1 emptyInv itemLap5 itInit
      (by decide)).2 (by norm_num [itInit, itemLap5])
    refine h.trans ?_
    norm_num [itInit, itemLap5]

/-! ### C3: weighted average of two purchases -/

/-- C3: starting from a state where the product key is absent, a PURCHASE
of q1 units at cost c1 followed by a PURCHASE of q2 units at cost c2 for
the same key (both quantities positive, no intervening transaction) yields
quantity q1 + q2 and averageCost (q1·c1 + q2·c2)/(q1 + q2). -/
theorem purchase_purchase_weighted_average (s : InvState) (t1 t2 : Tx)
    (d1 d2 : JStr) (q1 c1 q2 c2 : ℚ)
    (h1 : t1.type = TxType.PURCHASE) (h2 : t2.type = TxType.PURCHASE)
    (hi1 : t1.items = [{ description := d1, quantity := q1, price := c1 }])
    (hi2 : t2.items = [{ description := d2, quantity := q2, price := c2 }])
    (hkey : normalize d2 = normalize d1)
    (habs : s (normalize d1) = none) (hq1 : 0 < q1) (hq2 : 0 < q2) :
    ∃ r, clientApplyTx (clientApplyTx s t1) t2 (normalize d1) = some r ∧
      r.quantity = q1 + q2 ∧
      r.averageCost = (q1 * c1 + q2 * c2) / (q1 + q2) := by
  unfold clientApplyTx
  rw [hi1, hi2, h1, h2]
  simp only [List.foldl_cons, List.foldl_nil]
  have e1 : clientApplyItem t1.date TxType.PURCHASE s
      { description := d1, quantity := q1, price := c1 } (normalize d1) =
      some { id := normalize d1, name := d1, quantity := q1,
             averageCost := c1, sellingPrice := 0,
             lastUpdated := t1.date } :=
    purchase_fresh_pos t1.date s _ habs hq1
  have hs1 : clientApplyItem t1.date TxType.PURCHASE s
      { description := d1, quantity := q1, price := c1 } (normalize d2) =
      some { id := normalize d1, name := d1, quantity := q1,
             averageCost := c1, sellingPrice := 0,
             lastUpdated := t1.date } := by
    rw [hkey]
    exact e1
  have e2 := purchase_existing t2.date
    (clientApplyItem t1.date TxType.PURCHASE s
      { description := d1, quantity := q1, price := c1 })
    { description := d2, quantity := q2, price := c2 }
    { id := normalize d1, name := d1, quantity := q1, averageCost := c1,
      sellingPrice := 0, lastUpdated := t1.date }
    hs1
  rw [← hkey]
  refine ⟨_, e2, rfl, ?_⟩
  show (if 0 < q1 + q2 then (q1 * c1 + q2 * c2) / (q1 + q2) else c1) =
    (q1 * c1 + q2 * c2) / (q1 + q2)
  rw [if_pos (add_pos hq1 hq2)]

/-- C3 witness: buying 5 Laptops at 30000 (txA) then 5 "laptop " at 40000
(txC) into an empty inventory gives quantity 10 at average cost 35000. -/
theorem purchase_purchase_weighted_average_witness :
    ∃ r, clientApplyTx (clientApplyTx emptyInv txA) txC
        (normalize descLaptop) = some r ∧
      r.quantity = 10 ∧ r.averageCost = 35000 := by
  obtain ⟨r, hr, hq, ha⟩ := purchase_purchase_weighted_average emptyInv txA
    txC descLaptop descLaptopPad 5 30000 5 40000 rfl rfl rfl rfl
    (by decide) rfl (by norm_num) (by norm_num)
  refine ⟨r, hr, ?_, ?_⟩
  · rw [hq]
    norm_num
  · rw [ha]
    norm_num

/-! ### C8: the display name is set once, from the first-seen description -/

/-- The raw description of the first line item of a list whose normalized
key is `k`, if any. -/
def firstDescInItems (k : JStr) : List LineItem → Option JStr
  | [] => none
  | i :: is =>
    if normalize i.description = k then some i.description
    else firstDescInItems k is

/-- The raw description of the first line item, scanning the transactions
in application order and each transaction's items in list order, whose
normalized key is `k`. -/
def firstDesc (k : JStr) : List Tx → Option JStr
  | [] => none
  | t :: ts =>
    match firstDescInItems k t.items with
    | some d => some d
    | none => firstDesc k ts

theorem clientApplyItem_name_preserved (date : ℤ) (ty : TxType)
    (s : InvState) (item : LineItem) (k : JStr) (it : InventoryItem)
    (hit : s k = some it) :
    ∃ it2, clientApplyItem date ty s item k = some it2 ∧
      it2.name = it.name := by
  by_cases hk : k = normalize item.description
  · subst hk
    cases ty with
    | PURCHASE =>
      refine ⟨_, clientApplyItem_purchase date s item, ?_⟩
      show (invOrInit s (normalize item.description)
        item.description date).name = it.name
      unfold invOrInit
      rw [hit]
    | SALE =>
      refine ⟨_, clientApplyItem_sale date s item, ?_⟩
      show (invOrInit s (normalize item.description)
        item.description date).name = it.name
      unfold invOrInit
      rw [hit]
  · refine ⟨it, ?_, rfl⟩
    rw [clientApplyItem_off_key date ty s item k hk]
    exact hit

theorem foldl_items_name_preserved (date : ℤ) (ty : TxType)
    (items : List LineItem) : ∀ (s : InvState) (k : JStr)
    (it : InventoryItem), s k = some it →
    ∃ it2, (items.foldl (clientApplyItem date ty) s) k = some it2 ∧
      it2.name = it.name := by
  induction items with
  | nil =>
    intro s k it hit
    exact ⟨it, hit, rfl⟩
  | cons i is ih =>
    intro s k it hit
    obtain ⟨it1, h1, hn1⟩ :=
      clientApplyItem_name_preserved date ty s i k it hit
    obtain ⟨it2, h2, hn2⟩ := ih _ k it1 h1
    exact ⟨it2, h2, hn2.trans hn1⟩

theorem foldl_txns_name_preserved (txns : List Tx) :
    ∀ (s : InvState) (k : JStr) (it : InventoryItem), s k = some it →
    ∃ it2, (txns.foldl clientApplyTx s) k = some it2 ∧
      it2.name = it.name := by
  induction txns with
  | nil =>
    intro s k it hit
    exact ⟨it, hit, rfl⟩
  | cons t ts ih =>
    intro s k it hit
    obtain ⟨it1, h1, hn1⟩ :=
      foldl_items_name_preserved t.date t.type t.items s k it hit
    obtain ⟨it2, h2, hn2⟩ := ih _ k it1 h1
    exact ⟨it2, h2, hn2.trans hn1⟩

theorem clientApplyItem_fresh_name (date : ℤ) (ty : TxType) (s : InvState)
    (item : LineItem) (habs : s (normalize item.description) = none) :
    ∃ v, clientApplyItem date ty s item (normalize item.description) =
      some v ∧ v.name = item.description := by
  cases ty with
  | PURCHASE =>
    refine ⟨_, clientApplyItem_purchase date s item, ?_⟩
    show (invOrInit s (normalize item.description)
      item.description date).name = item.description
    unfold invOrInit
    rw [habs]
  | SALE =>
    refine ⟨_, clientApplyItem_sale date s item, ?_⟩
    show (invOrInit s (normalize item.description)
      item.description date).name = item.description
    unfold invOrInit
    rw [habs]

theorem foldl_items_fresh_name (date : ℤ) (ty : TxType)
    (items : List LineItem) : ∀ (s : InvState) (k : JStr), s k = none →
    (∀ it2, (items.foldl (clientApplyItem date ty) s) k = some it2 →
      firstDescInItems k items = some it2.name) ∧
    ((items.foldl (clientApplyItem date ty) s) k = none →
      firstDescInItems k items = none) := by
  induction items with
  | nil =>
    intro s k hk
    refine ⟨fun it2 h => ?_, fun _ => rfl⟩
    rw [List.foldl_nil] at h
    rw [hk] at h
    cases h
  | cons i is ih =>
    intro s k hk
    by_cases hkey : normalize i.description = k
    · obtain ⟨v, hv, hvn⟩ := clientApplyItem_fresh_name date ty s i
        (by rw [hkey]; exact hk)
      rw [hkey] at hv
      constructor
      · intro it2 hfold
        rw [List.foldl_cons] at hfold
        obtain ⟨it3, h3, hn3⟩ :=
          foldl_items_name_preserved date ty is _ k v hv
        have he : it2 = it3 := by
          rw [hfold] at h3
          exact Option.some.inj h3
        subst he
        unfold firstDescInItems
        rw [if_pos hkey, hn3, hvn]
      · intro hnone
        rw [List.foldl_cons] at hnone
        obtain ⟨it3, h3, _⟩ :=
          foldl_items_name_preserved date ty is _ k v hv
        rw [hnone] at h3
        cases h3
    · have hskip : (clientApplyItem date ty s i) k = none := by
        rw [clientApplyItem_off_key date ty s i k fun he => hkey he.symm]
        exact hk
      constructor
      · intro it2 hfold
        rw [List.foldl_cons] at hfold
        have := (ih _ k hskip).1 it2 hfold
        unfold firstDescInItems
        rw [if_neg hkey]
        exact this
      · intro hnone
        rw [List.foldl_cons] at hnone
        have := (ih _ k hskip).2 hnone
        unfold firstDescInItems
        rw [if_neg hkey]
        exact this

theorem foldl_txns_fresh_name (txns : List Tx) :
    ∀ (s : InvState) (k : JStr), s k = none →
    ∀ it, (txns.foldl clientApplyTx s) k = some it →
      firstDesc k txns = some it.name := by
  induction txns with
  | nil =>
    intro s k hk it h
    rw [List.foldl_nil] at h
    rw [hk] at h
    cases h
  | cons t ts ih =>
    intro s k hk it hfold
    rw [List.foldl_cons] at hfold
    cases h1 : (clientApplyTx s t) k with
    | none =>
      have hnone : firstDescInItems k t.items = none :=
        (foldl_items_fresh_name t.date t.type t.items s k hk).2 h1
      show firstDesc k (t :: ts) = some it.name
      unfold firstDesc
      rw [hnone]
      exact ih _ k h1 it hfold
    | some v =>
      have hfirst : firstDescInItems k t.items = some v.name :=
        (foldl_items_fresh_name t.date t.type t.items s k hk).1 v h1
      obtain ⟨it2, h2, hn2⟩ := foldl_txns_name_preserved ts _ k v h1
      have he : it = it2 := by
        rw [hfold] at h2
        exact Option.some.inj h2
      subst he
      show firstDesc k (t :: ts) = some it.name
      unfold firstDesc
      rw [hfirst, hn2]

/-- C8: in the fold that builds the inventory (transactions in application
order, items in list order), the `name` stored under a key is exactly the
raw, un-normalized description of the first line item that created the
key: no later transaction whose item description normalizes to the same
key ever changes it.  Stated both for a fold of an arbitrary ordered
history and for the client derivation (which folds the date-sorted
history). -/
theorem inventory_name_set_once (txns : List Tx) (k : JStr)
    (it : InventoryItem) :
    ((txns.foldl clientApplyTx emptyInv) k = some it →
      firstDesc k txns = some it.name) ∧
    (clientDerive txns k = some it →
      firstDesc k (sortByDate txns) = some it.name) :=
  ⟨fun h => foldl_txns_fresh_name txns emptyInv k rfl it h,
   fun h => foldl_txns_fresh_name (sortByDate txns) emptyInv k rfl it h⟩

/-- The record for key "laptop" after the spec example history: created by
txA (name "Laptop"), then sold once by txB. -/
def itD : InventoryItem :=
  { id := [108, 97, 112, 116, 111, 112], name := descLaptop, quantity := 4,
    averageCost := 30000, sellingPrice := 35000, lastUpdated := 2 }

/-- C8 witness: after the history [txA, txB] the name under key "laptop"
is the raw first-seen description "Laptop", even though txB later touched
the same key under the variant "laptop ". -/
theorem inventory_name_set_once_witness :
    firstDesc (normalize descLaptop) [txA, txB] = some descLaptop := by
  have hk : normalize descLaptopPad = normalize descLaptop := by decide
  have e1 : clientApplyTx emptyInv txA (normalize descLaptop) =
      some { id := normalize descLaptop, name := descLaptop, quantity := 5,
             averageCost := 30000, sellingPrice := 0, lastUpdated := 1 } :=
    purchase_fresh_pos 1 emptyInv itemLap5 rfl (by norm_num [itemLap5])
  have hs : clientApplyTx emptyInv txA (normalize descLaptopPad) =
      some { id := normalize descLaptop, name := descLaptop, quantity := 5,
             averageCost := 30000, sellingPrice := 0, lastUpdated := 1 } := by
    rw [hk]
    exact e1
  have e2 := (sale_existing_key_frame 2 (clientApplyTx emptyInv txA)
      { description := descLaptopPad, quantity := 1, price := 35000 }
      { id := normalize descLaptop, name := descLaptop, quantity := 5,
        averageCost := 30000, sellingPrice := 0, lastUpdated := 1 } hs).1
  have hfold : List.foldl clientApplyTx emptyInv [txA, txB]
      (normalize descLaptop) = some itD := by
    show clientApplyTx (clientApplyTx emptyInv txA) txB
      (normalize descLaptop) = some itD
    rw [← hk]
    refine e2.trans ?_
    have hid : normalize descLaptop = [108, 97, 112, 116, 111, 112] := by
      decide
    norm_num [itD, InventoryItem.mk.injEq, hid]
  exact (inventory_name_set_once [txA, txB] (normalize descLaptop) itD).1 hfold

end Billventory
